/-
Verification of the LocalLLMDemo repository against its natural-language
specification.

The development shallowly embeds the Python sources:

* `llm_local/utils.py`            → `LlmLocal.chunk_text` and helpers
* `llm_local/diff_utils.py`       → `LlmLocal.apply_diff_with_git`
* `llm_local/llm_client.py`       → `LlmLocal.chatRequestOptions`, chat-session
                                    operations (`start_chat`, `send_chat_message`,
                                    `get_history`, `reset_chat`)
* `llm_local/workspace_index.py`  → `LlmLocal.storeSet` / `storeGet` /
                                    `storeSave` / `storeLoad`
* `llm_local/code_service.py`     → `LlmLocal.getPythonClassInterface`
* `llm_local/workspace_analyzer.py` → `LlmLocal.analyze` and helpers

Python strings are modelled as `List Char` where character-level slicing
matters (the chunker) and as `String` elsewhere; Python dicts are modelled
either as insertion-ordered association lists (matching dict iteration
order) or as lookup functions, as noted at each definition.
-/
import Mathlib

namespace LlmLocal

/-! ## Text chunker (`llm_local/utils.py`, `chunk_text`) -/

/-- Python `str.strip()`: remove leading and trailing whitespace. -/
def stripChars (l : List Char) : List Char :=
  ((l.dropWhile Char.isWhitespace).reverse.dropWhile Char.isWhitespace).reverse

/-- The `while start < text_len` loop of `chunk_text` (utils.py lines 78-86).
`fuel` bounds the number of iterations; `chunk_text` supplies `t.length`,
which is shown sufficient in `chunkLoop_fuel_add` (each continuing iteration
advances `start` by `maxChars - overlap ≥ 1`). -/
def chunkLoop (t : List Char) (maxChars overlap : Nat) : Nat → Nat → List (List Char)
  | 0, _ => []
  | fuel + 1, start =>
    if start < t.length then
      -- end = min(start + max_chars, text_len); chunk = text[start:end].strip()
      let e := min (start + maxChars) t.length
      let chunk := stripChars ((t.drop start).take (e - start))
      let acc := if chunk = [] then [] else [chunk]
      -- if end == text_len: break  else: start = end - overlap
      if e = t.length then acc
      else acc ++ chunkLoop t maxChars overlap fuel (e - overlap)
    else []

/-- `chunk_text` (utils.py lines 37-88): validate arguments, strip the text,
return `[]` for empty/whitespace-only text, otherwise run the chunking loop. -/
def chunk_text (text : List Char) (max_chars overlap : Int) : Except String (List (List Char)) :=
  if max_chars ≤ 0 then .error "max_chars must be positive."
  else if overlap < 0 then .error "overlap cannot be negative."
  else if max_chars ≤ overlap then .error "overlap must be smaller than max_chars."
  else
    let t := stripChars text
    if t = [] then .ok []
    else .ok (chunkLoop t max_chars.toNat overlap.toNat t.length 0)

/-- Spec predicate: consecutive chunks overlap by exactly `overlap`
characters (the trailing `overlap` characters of each chunk equal the
leading `overlap` characters of the next). -/
def overlapOK (overlap : Nat) : List (List Char) → Bool
  | a :: b :: rest => (a.drop (a.length - overlap) == b.take overlap) && overlapOK overlap (b :: rest)
  | _ => true

/-- Spec operation: concatenate the chunks after removing each chunk's
leading `overlap` characters (all chunks but the first). -/
def reassemble (overlap : Nat) : List (List Char) → List Char
  | [] => []
  | c :: cs => c ++ (cs.map (List.drop overlap)).flatten

/-- The chunk produced at a given window start (already stripped). -/
def windowChunk (t : List Char) (M start : Nat) : List Char :=
  stripChars ((t.drop start).take (min (start + M) t.length - start))

/-! ## Diff applicator (`llm_local/diff_utils.py`, `apply_diff_with_git`) -/

/-- Outcome of `subprocess.run(["git", "apply", "-"], ...)`: either the
external command ran to completion with an exit code and captured output
streams, or the executable is not installed (in which case `subprocess.run`
itself raises `FileNotFoundError`). -/
inductive ProcResult
  | completed (returncode : Int) (stdout stderr : String)
  | notInstalled

/-- Python exceptions that can escape `apply_diff_with_git`. -/
inductive DiffApplyError
  | runtimeError (msg : String)
  | fileNotFoundError

/-- `apply_diff_with_git` (diff_utils.py lines 7-39): run `git apply` with the
diff on stdin; raise `RuntimeError` with the captured output if the exit code
is nonzero.  A missing `git` executable makes `subprocess.run` raise
`FileNotFoundError`, which the function does not catch. -/
def apply_diff_with_git (diff_text : String) (run_result : ProcResult) :
    Except DiffApplyError Unit :=
  match run_result with
  | .notInstalled => .error .fileNotFoundError
  | .completed returncode stdout stderr =>
    if returncode ≠ 0 then
      .error (.runtimeError
        ("git apply failed with code " ++ toString returncode ++ ":\n" ++
         "STDOUT:\n" ++ stdout ++ "\n" ++ "STDERR:\n" ++ stderr))
    else .ok ()

/-! ## LLM client (`llm_local/llm_client.py`) -/

/-- A value stored in a backend `options` dict.  Sampling temperatures are
Python floats; no arithmetic is ever performed on them, so they are modelled
as `Rat`.  `int` covers `num_predict`, `str` arbitrary other options. -/
inductive OptVal
  | num (q : Rat)
  | int (n : Int)
  | str (s : String)
deriving DecidableEq

/-- A Python dict modelled by its lookup function. -/
def PyDict (α : Type) := String → Option α

/-- The empty dict. -/
def PyDict.empty {α : Type} : PyDict α := fun _ => none

/-- `d[k] = v`. -/
def PyDict.setKey {α : Type} (d : PyDict α) (k : String) (v : α) : PyDict α :=
  fun k' => if k' = k then some v else d k'

/-- `d.update(u)`: entries of `u` win. -/
def PyDict.updateWith {α : Type} (d u : PyDict α) : PyDict α :=
  fun k => (u k).orElse (fun _ => d k)

/-- The configuration fields of `LocalLLMConfig` (llm_client.py lines 12-51)
that request construction reads. -/
structure LocalLLMConfig where
  model : String := "llama3.2:3b"
  default_temperature : Rat := 1/5
  default_max_tokens : Option Int := none
  default_options : PyDict OptVal := PyDict.empty

/-- Chat message roles. -/
inductive Role
  | system | user | assistant
deriving DecidableEq

/-- One chat message (`{"role": ..., "content": ...}`). -/
structure ChatMsg where
  role : Role
  content : String
deriving DecidableEq

/-- The `options` mapping of the request body built by `LocalLLM.chat`
(llm_client.py lines 262-276): start from the config default options, set
`temperature` to the effective temperature, set `num_predict` when the
effective max-token value is present and positive, then merge the per-call
`options` dict over the result.  (`if options:` skips `None` and the empty
dict; merging the empty dict is the identity, so both are the `none`/empty
cases of the same `match`.) -/
def chatRequestOptions (cfg : LocalLLMConfig) (temperature : Option Rat)
    (max_tokens : Option Int) (options : Option (PyDict OptVal)) : PyDict OptVal :=
  let effective_temperature :=
    match temperature with
    | some t => t
    | none => cfg.default_temperature
  let effective_max_tokens :=
    match max_tokens with
    | some m => some m
    | none => cfg.default_max_tokens
  let request_options := cfg.default_options.setKey "temperature" (.num effective_temperature)
  let request_options :=
    match effective_max_tokens with
    | some m => if 0 < m then request_options.setKey "num_predict" (.int m) else request_options
    | none => request_options
  match options with
  | some o => request_options.updateWith o
  | none => request_options

/-- The request body of `LocalLLM.chat` (llm_client.py lines 278-283). -/
structure ChatPayload where
  model : String
  messages : List ChatMsg
  stream : Bool
  options : PyDict OptVal

/-- `payload = {...}` built by `LocalLLM.chat`. -/
def chatPayload (cfg : LocalLLMConfig) (messages : List ChatMsg)
    (temperature : Option Rat) (max_tokens : Option Int)
    (options : Option (PyDict OptVal)) : ChatPayload :=
  { model := cfg.model
    messages := messages
    stream := false
    options := chatRequestOptions cfg temperature max_tokens options }

/-! ## Persistent chat session (`llm_client.py` lines 308-361) -/

/-- `LocalLLM._chat_history`: `None` before `start_chat` / after `reset_chat`,
otherwise the accumulated message list. -/
abbrev ChatState := Option (List ChatMsg)

/-- Outcome of the single `self.chat(...)` HTTP round trip inside
`send_chat_message`: either the backend replied with a text, or the call
failed with a backend `RuntimeError`. -/
inductive ChatOutcome
  | reply (text : String)
  | backendFailure

/-- Errors raised by `send_chat_message`. -/
inductive SessionError
  | noActiveSession
  | backendError
deriving DecidableEq

/-- `start_chat` (lines 308-315): reset the history, optionally seeding a
system message (`if system_prompt:` — the empty string is falsy). -/
def start_chat (system_prompt : Option String) : ChatState :=
  some (match system_prompt with
        | some s => if s.isEmpty then [] else [⟨.system, s⟩]
        | none => [])

/-- `send_chat_message` (lines 317-349): fail if no session is active;
append the user turn; run `chat` on the full history; on success append the
assistant reply and return it.  Returns the call result together with the
post-call `_chat_history` (the in-place mutations survive a failing call). -/
def send_chat_message (st : ChatState) (user_message : String)
    (outcome : ChatOutcome) : Except SessionError String × ChatState :=
  match st with
  | none => (.error .noActiveSession, none)
  | some history =>
    let history := history ++ [⟨.user, user_message⟩]
    match outcome with
    | .reply text => (.ok text, some (history ++ [⟨.assistant, text⟩]))
    | .backendFailure => (.error .backendError, some history)

/-- `get_history` (lines 351-355): `list(self._chat_history or [])`. -/
def get_history (st : ChatState) : List ChatMsg := st.getD []

/-- `reset_chat` (lines 357-361): clear the session. -/
def reset_chat (st : ChatState) : ChatState := none

/-! For the freshness half of C10 ("mutating the returned list does not
affect the stored session history") Python list identity matters, so the
relevant heap structure is made explicit: a store of list cells addressed by
index, with `_chat_history` holding a cell reference.  `get_history`'s
`list(...)` copy allocates a fresh cell. -/

/-- A heap of Python list objects. -/
structure PyHeap where
  cells : List (List ChatMsg)

/-- Dereference a list object. -/
def readRef (h : PyHeap) (r : Nat) : List ChatMsg := h.cells.getD r []

/-- In-place mutation of a list object. -/
def writeRef (h : PyHeap) (r : Nat) (v : List ChatMsg) : PyHeap :=
  ⟨h.cells.set r v⟩

/-- `get_history` at the heap level: `list(self._chat_history or [])`
allocates a new list object whose contents copy the session history (empty
when no session is active) and returns a reference to it. -/
def get_history_ref (h : PyHeap) (hist_ref : Option Nat) : PyHeap × Nat :=
  (⟨h.cells ++ [match hist_ref with
                | some r => readRef h r
                | none => []]⟩, h.cells.length)

/-! ## Metadata store (`llm_local/workspace_index.py`, `ClassMetadataStore`) -/

/-- `ClassMetadata` (workspace_index.py lines 9-25). -/
structure ClassMetadata where
  interface : String
  summary : String
deriving DecidableEq

/-- Lookup in an insertion-ordered association list (Python `dict.get`). -/
def alGet {K V : Type} [DecidableEq K] : List (K × V) → K → Option V
  | [], _ => none
  | (k', v) :: rest, k => if k' = k then some v else alGet rest k

/-- Python `d[k] = v` on an insertion-ordered association list: replace the
existing entry in place, or append a new one. -/
def alSet {K V : Type} [DecidableEq K] : List (K × V) → K → V → List (K × V)
  | [], k, v => [(k, v)]
  | (k', v') :: rest, k, v =>
    if k' = k then (k, v) :: rest else (k', v') :: alSet rest k v

/-- `ClassMetadataStore._index` (`index[file_path][class_name] = ClassMetadata`),
as an insertion-ordered dict of dicts. -/
abbrev ClassIndex := List (String × List (String × ClassMetadata))

/-- `ClassMetadataStore.set` (lines 136-163): create the file-level bucket if
absent, then upsert the symbol entry. -/
def storeSet (idx : ClassIndex) (file_path class_name interface summary : String) :
    ClassIndex :=
  let bucket := (alGet idx file_path).getD []
  alSet idx file_path (alSet bucket class_name ⟨interface, summary⟩)

/-- `ClassMetadataStore.get` (lines 113-134):
`self._index.get(file_path, {}).get(class_name)`. -/
def storeGet (idx : ClassIndex) (file_path class_name : String) : Option ClassMetadata :=
  alGet ((alGet idx file_path).getD []) class_name

/-- One symbol entry as stored in the JSON document; both fields are written
by `save` but may be absent in hand-edited documents (`load` defaults them). -/
structure SymJson where
  interfaceField : Option String
  summaryField : Option String

/-- `ClassMetadataStore.save` (lines 90-111): serialize the index into the
JSON document structure (a dict of dicts of `{"interface", "summary"}`). -/
def storeSave (idx : ClassIndex) : List (String × List (String × SymJson)) :=
  idx.map (fun fc => (fc.1, fc.2.map (fun cm =>
    (cm.1, ⟨some cm.2.interface, some cm.2.summary⟩))))

/-- `ClassMetadataStore.load` (lines 68-88): rebuild the index from the JSON
document, defaulting missing fields to the empty string
(`data.get("interface", "")`). -/
def storeLoad (raw : List (String × List (String × SymJson))) : ClassIndex :=
  raw.map (fun fc => (fc.1, fc.2.map (fun cd =>
    (cd.1, ⟨cd.2.interfaceField.getD "", cd.2.summaryField.getD ""⟩))))

/-- One `set(file, symbol, interface, summary)` call. -/
structure SetOp where
  file : String
  cls : String
  interface : String
  summary : String

/-- Run a sequence of `set` calls against a store. -/
def applyOps (ops : List SetOp) (idx : ClassIndex) : ClassIndex :=
  ops.foldl (fun i op => storeSet i op.file op.cls op.interface op.summary) idx

/-- The last value written for a `(file, symbol)` key by a sequence of `set`
calls, if any. -/
def lastSet (ops : List SetOp) (file_path class_name : String) : Option ClassMetadata :=
  (ops.reverse.find? (fun op => op.file == file_path && op.cls == class_name)).map
    (fun op => ⟨op.interface, op.summary⟩)

/-! ## Code interface extractor
(`llm_local/code_service.py`, `_get_python_class_interface`, lines 566-630) -/

/-- A parsed `def`/`async def`, with the fields the extractor reads: name,
the first source line of the definition (absent when `ast.get_source_segment`
yields nothing), the docstring (`ast.get_docstring` with `clean=False`, so
verbatim), the column offset, and the async flag. -/
structure PyFunctionDef where
  name : String
  headerLine : Option String
  docstring : Option String
  colOffset : Nat
  isAsync : Bool
deriving DecidableEq

/-- A statement in a class body: the extractor only inspects function
definitions and ignores everything else. -/
inductive PyClassStmt
  | funcDef (f : PyFunctionDef)
  | other
deriving DecidableEq

/-- A parsed top-level class. -/
structure PyClassDef where
  name : String
  headerLine : Option String
  docstring : Option String
  colOffset : Nat
  body : List PyClassStmt
deriving DecidableEq

/-- A top-level statement of a parsed module (`ast.parse(...).body`). -/
inductive PyTopStmt
  | classDef (c : PyClassDef)
  | funcDef (f : PyFunctionDef)
  | other
deriving DecidableEq

/-- A parseable Python source, as its parsed module body. -/
abbrev PyModule := List PyTopStmt

/-- `n` spaces. -/
def spacesStr (n : Nat) : String := String.mk (List.replicate n ' ')

/-- One line of `textwrap.indent`: the prefix is added to every line with
non-whitespace content. -/
def indentLine (pre line : String) : String :=
  if line.trim.isEmpty then line else pre ++ line

/-- `textwrap.indent(s, pre)` on newline-separated text. -/
def indentBlock (pre s : String) : String :=
  String.intercalate "\n" ((s.splitOn "\n").map (indentLine pre))

/-- `f'%s' % doc` wrapped in triple quotes (code_service.py lines 588, 610). -/
def quoteDoc (doc : String) : String := "\"\"\"" ++ doc ++ "\"\"\""

/-- The `for node in tree.body` search for the first top-level `ClassDef`
with the requested name (code_service.py lines 572-576). -/
def findTopLevelClass (m : PyModule) (class_name : String) : Option PyClassDef :=
  m.findSome? (fun st =>
    match st with
    | .classDef c => if c.name = class_name then some c else none
    | _ => none)

/-- Fallback method header when no source segment is available
(code_service.py lines 598-602). -/
def methodHeaderFallback (f : PyFunctionDef) : String :=
  spacesStr f.colOffset ++ (if f.isAsync then "async " else "") ++
    "def " ++ f.name ++ "(...):"

/-- The lines rendered for one kept method (code_service.py lines 597-616):
header, docstring block (if any), and the `...` body placeholder. -/
def methodLines (f : PyFunctionDef) : List String :=
  (match f.headerLine with
   | some h => [h]
   | none => [methodHeaderFallback f]) ++
  (match f.docstring with
   | some doc => [indentBlock (spacesStr (f.colOffset + 4)) (quoteDoc doc)]
   | none => []) ++
  [spacesStr (f.colOffset + 4) ++ "..."]

/-- The class header line and docstring block
(code_service.py lines 581-590). -/
def classPreamble (c : PyClassDef) : List String :=
  (match c.headerLine with
   | some h => [h]
   | none => ["class " ++ c.name ++ ":"]) ++
  (match c.docstring with
   | some doc => [indentBlock (spacesStr (c.colOffset + 4)) (quoteDoc doc)]
   | none => [])

/-- The body of the `for node in class_node.body` loop
(code_service.py lines 592-616), as a fold step over the rendered lines:
skip non-function statements and private (`__`-prefixed, non-`__init__`)
methods, append the rendered block of every other method. -/
def interfaceStep (acc : List String) (st : PyClassStmt) : List String :=
  match st with
  | .funcDef f =>
    if f.name.startsWith "__" && f.name != "__init__" then acc
    else acc ++ methodLines f
  | .other => acc

/-- `_get_python_class_interface` (code_service.py lines 566-618): find the
top-level class (a missing class raises `ValueError`), render the class
header and docstring, then loop over the body keeping every function
definition except those whose name starts with `__` and is not `__init__`,
rendering header + docstring + `...` for each. -/
def getPythonClassInterface (m : PyModule) (class_name : String) :
    Except String String :=
  match findTopLevelClass m class_name with
  | none => .error ("Class " ++ class_name ++ " not found in code.")
  | some c =>
    let lines := c.body.foldl interfaceStep (classPreamble c)
    .ok (String.intercalate "\n" lines)

/-- Project a class-body statement to its function definition, if any. -/
def classStmtFunc (st : PyClassStmt) : Option PyFunctionDef :=
  match st with
  | .funcDef f => some f
  | .other => none

/-- The keep/skip policy of the extractor, as a predicate on one method. -/
def keepMethod (f : PyFunctionDef) : Bool :=
  !(f.name.startsWith "__" && f.name != "__init__")

/-- The function definitions of a class body, in order. -/
def classFuncDefs (c : PyClassDef) : List PyFunctionDef :=
  c.body.filterMap classStmtFunc

/-- The methods the extractor keeps. -/
def includedMethods (c : PyClassDef) : List PyFunctionDef :=
  (classFuncDefs c).filter keepMethod

/-! ## Workspace analyzer (`llm_local/workspace_analyzer.py`) -/

/-- A value stored for one symbol in a folder's `files` mapping: either an
`{"interface", "summary"}` dict, or (under the reserved `__functions__` key)
a dict of function name → `{"interface", "summary"}`. -/
inductive SymEntry
  | meta (interface summary : String)
  | funcs (entries : List (String × (String × String)))
deriving DecidableEq

/-- `FolderNode` (workspace_analyzer.py lines 50-74): relative path (`.` for
the root), `files` (filename → symbol → entry), `subfolders` (name → node),
all insertion-ordered. -/
structure FolderNode where
  path : String
  files : List (String × List (String × SymEntry))
  subfolders : List (String × FolderNode)

/-- The exception that aborts per-file analysis. -/
inductive AnalyzeExc
  | attributeError (missing_attribute : String)
deriving DecidableEq

/-- One Python file of the workspace, as `_iter_python_files` yields it:
its directory relative to the root (`.` for the root), its filename, and its
parsed content. -/
structure WorkspaceFile where
  relDir : String
  fileName : String
  module : PyModule

/-- `_extract_top_level_symbols` (workspace_analyzer.py lines 249-284):
top-level class names and top-level function names, in order.  (Unparseable
sources yield `([], [])`; inputs here are already-parsed modules.) -/
def extract_top_level_symbols (m : PyModule) : List String × List String :=
  (m.filterMap (fun st =>
     match st with
     | .classDef c => some c.name
     | _ => none),
   m.filterMap (fun st =>
     match st with
     | .funcDef f => some f.name
     | _ => none))

/-- The relative directory path split into parts (`Path(rel_dir).parts`),
empty for the root. -/
def pathParts (relDir : String) : List String :=
  if relDir = "." ∨ relDir = "" then [] else relDir.splitOn "/"

/-- `_get_or_create_folder_node` (workspace_analyzer.py lines 297-315)
combined with an in-place update of the reached node: walk the parts,
creating missing `FolderNode`s with the running relative path, and apply
`upd` at the destination. -/
def updateFolderAt : FolderNode → List String → String → (FolderNode → FolderNode) → FolderNode
  | node, [], _, upd => upd node
  | node, part :: rest, prefixPath, upd =>
    let childPath := if prefixPath = "" then part else prefixPath ++ "/" ++ part
    let child := (alGet node.subfolders part).getD (FolderNode.mk childPath [] [])
    { node with subfolders := alSet node.subfolders part (updateFolderAt child rest childPath upd) }

/-- `_analyze_file_into_tree` (workspace_analyzer.py lines 150-247).  The
steps before the first metadata computation succeed: the file is read, the
top-level symbols are extracted, the `CodeService` is constructed, the folder
node is created and `node.files.setdefault(file_key, {})` registers the file
with an empty symbol dict.  Then line 187 evaluates
`code_service.get_module_interface()` — `CodeService` (code_service.py)
defines no method of that name (nor `describe_module`,
`get_function_interface`, `describe_function`), so attribute lookup raises
`AttributeError` on every run and lines 187-247 never record any metadata.
The function returns the state as mutated up to the raise, plus the
exception. -/
def analyze_file_into_tree (wf : WorkspaceFile) (tree : FolderNode)
    (store : ClassIndex) : (FolderNode × ClassIndex) × Option AnalyzeExc :=
  let tree := updateFolderAt tree (pathParts wf.relDir) "" (fun node =>
    { node with files :=
        if (alGet node.files wf.fileName).isSome then node.files
        else node.files ++ [(wf.fileName, [])] })
  ((tree, store), some (.attributeError "get_module_interface"))

/-- The recursion of `_write_folder_jsons.write_node`
(workspace_analyzer.py lines 334-346): emit (folder path, document) for this
node — the document embeds the node's whole subtree (`to_dict`) — then
recurse into the subfolders, preorder.  `fuel` bounds the recursion depth;
`analyze` supplies a bound that dominates the depth of the tree it built
(every node lies on some analyzed file's directory path). -/
def writeFolderJsonsAux : Nat → FolderNode → List (String × FolderNode)
  | 0, _ => []
  | fuel + 1, node =>
    (node.path, node) :: node.subfolders.flatMap (fun ch => writeFolderJsonsAux fuel ch.2)

/-- Depth bound for the folder tree built from the given files: the root
plus one level per directory-path part of every file. -/
def folderDepthBound (files : List WorkspaceFile) : Nat :=
  1 + files.foldl (fun n wf => n + (pathParts wf.relDir).length) 0

/-- `WorkspaceAnalyzer.analyze` (workspace_analyzer.py lines 111-133): start
from an empty root node, analyze each file with per-file exception isolation
(`except Exception: logger.exception(...)` — the mutations made before the
raise survive, the run continues), then write the per-folder documents and
save the flat store.  Returns the final tree, the flat store contents (what
`metadata_store.save()` serializes), and the written folder documents. -/
def analyze (files : List WorkspaceFile) (store : ClassIndex) :
    FolderNode × ClassIndex × List (String × FolderNode) :=
  let init := FolderNode.mk "." [] []
  let result := files.foldl (fun acc wf => (analyze_file_into_tree wf acc.1 acc.2).1)
    (init, store)
  (result.1, result.2, writeFolderJsonsAux (folderDepthBound files) result.1)

/-- The scenario file of C1: `a.py` with one top-level class `Foo` holding
one public method `bar` (docstring "Does bar") and one top-level function
`helper`. -/
def scenarioBar : PyFunctionDef :=
  ⟨"bar", some "    def bar(self):", some "Does bar", 4, false⟩

/-- The scenario class `Foo`. -/
def scenarioFoo : PyClassDef :=
  ⟨"Foo", some "class Foo:", none, 0, [.funcDef scenarioBar]⟩

/-- The scenario function `helper`. -/
def scenarioHelper : PyFunctionDef :=
  ⟨"helper", some "def helper():", none, 0, false⟩

/-- The scenario workspace file `a.py` at the workspace root. -/
def scenarioFile : WorkspaceFile :=
  ⟨".", "a.py", [.classDef scenarioFoo, .funcDef scenarioHelper]⟩

/-- The witness class for C7: `Foo` with constructor, public method `bar`
(docstring "Does bar"), and private method `__secret`. -/
def witnessInit : PyFunctionDef :=
  ⟨"__init__", some "    def __init__(self):", some "Init doc", 4, false⟩

/-- The witness public method. -/
def witnessBar : PyFunctionDef :=
  ⟨"bar", some "    def bar(self):", some "Does bar", 4, false⟩

/-- The witness private method. -/
def witnessSecret : PyFunctionDef :=
  ⟨"__secret", some "    def __secret(self):", none, 4, false⟩

/-- The witness class. -/
def witnessClass : PyClassDef :=
  ⟨"Foo", some "class Foo:", some "A class.", 0,
    [.funcDef witnessInit, .funcDef witnessBar, .funcDef witnessSecret]⟩

/-- The witness module. -/
def witnessModule : PyModule := [.classDef witnessClass]

/-! ## Theorems -/

theorem stripChars_length_le (l : List Char) : (stripChars l).length ≤ l.length := by
  unfold stripChars
  calc ((l.dropWhile Char.isWhitespace).reverse.dropWhile Char.isWhitespace).reverse.length
      = ((l.dropWhile Char.isWhitespace).reverse.dropWhile Char.isWhitespace).length := by
        rw [List.length_reverse]
    _ ≤ (l.dropWhile Char.isWhitespace).reverse.length :=
        (List.dropWhile_sublist _).length_le
    _ = (l.dropWhile Char.isWhitespace).length := by rw [List.length_reverse]
    _ ≤ l.length := (List.dropWhile_sublist _).length_le

theorem dropWhile_eq_self_of_forall {l : List Char} (h : ∀ c ∈ l, c.isWhitespace = false) :
    l.dropWhile Char.isWhitespace = l := by
  cases l with
  | nil => rfl
  | cons a l =>
    rw [List.dropWhile_cons]
    simp [h a (by simp)]

theorem stripChars_eq_self {l : List Char} (h : ∀ c ∈ l, c.isWhitespace = false) :
    stripChars l = l := by
  unfold stripChars
  rw [dropWhile_eq_self_of_forall h,
      dropWhile_eq_self_of_forall (by intro c hc; exact h c (List.mem_reverse.mp hc)),
      List.reverse_reverse]

/-- One unfolding of the chunking loop, in a normalized `++` form. -/
theorem chunkLoop_succ_eq (t : List Char) (M V fuel start : Nat) :
    chunkLoop t M V (fuel + 1) start =
      if start < t.length then
        (if windowChunk t M start = [] then [] else [windowChunk t M start]) ++
        (if min (start + M) t.length = t.length then []
         else chunkLoop t M V fuel (min (start + M) t.length - V))
      else [] := by
  by_cases hs : start < t.length
  · by_cases he : min (start + M) t.length = t.length
    · simp [chunkLoop, windowChunk, hs, he]
    · simp [chunkLoop, windowChunk, hs, he]
  · simp [chunkLoop, hs]

theorem chunkLoop_fuel_succ (t : List Char) (M V : Nat) (hVM : V < M) :
    ∀ f start, t.length - start ≤ f →
      chunkLoop t M V (f + 1) start = chunkLoop t M V f start := by
  intro f
  induction f with
  | zero =>
    intro start h
    have hls : ¬ start < t.length := by omega
    rw [chunkLoop_succ_eq, if_neg hls]
    simp [chunkLoop, hls]
  | succ f ih =>
    intro start h
    rw [chunkLoop_succ_eq t M V (f + 1) start, chunkLoop_succ_eq t M V f start]
    by_cases hs : start < t.length
    · rw [if_pos hs, if_pos hs]
      by_cases he : min (start + M) t.length = t.length
      · rw [if_pos he, if_pos he]
      · have hlt : start + M < t.length := by omega
        have he' : min (start + M) t.length = start + M := by omega
        rw [if_neg he, if_neg he, he', ih (start + M - V) (by omega)]
    · rw [if_neg hs, if_neg hs]

theorem chunkLoop_fuel_add (t : List Char) (M V : Nat) (hVM : V < M) :
    ∀ extra f start, t.length - start ≤ f →
      chunkLoop t M V (f + extra) start = chunkLoop t M V f start := by
  intro extra
  induction extra with
  | zero => intro f start _; rfl
  | succ k ih =>
    intro f start h
    have hfk : f + (k + 1) = (f + k) + 1 := by omega
    rw [hfk, chunkLoop_fuel_succ t M V hVM (f + k) start (by omega), ih f start h]

theorem windowChunk_length_le (t : List Char) (M start : Nat) :
    (windowChunk t M start).length ≤ M := by
  calc (windowChunk t M start).length
      ≤ ((t.drop start).take (min (start + M) t.length - start)).length :=
        stripChars_length_le _
    _ ≤ min (start + M) t.length - start := by rw [List.length_take]; omega
    _ ≤ M := by omega

theorem chunkLoop_mem (t : List Char) (M V : Nat) :
    ∀ f start c, c ∈ chunkLoop t M V f start → c ≠ [] ∧ c.length ≤ M := by
  intro f
  induction f with
  | zero => intro start c hc; simp [chunkLoop] at hc
  | succ f ih =>
    intro start c hc
    rw [chunkLoop_succ_eq] at hc
    by_cases hs : start < t.length
    · rw [if_pos hs] at hc
      rcases List.mem_append.mp hc with hc1 | hc2
      · by_cases hemp : windowChunk t M start = []
        · rw [if_pos hemp] at hc1; simp at hc1
        · rw [if_neg hemp] at hc1
          simp at hc1
          subst hc1
          exact ⟨hemp, windowChunk_length_le t M start⟩
      · by_cases he : min (start + M) t.length = t.length
        · rw [if_pos he] at hc2; simp at hc2
        · rw [if_neg he] at hc2
          exact ih _ c hc2
    · rw [if_neg hs] at hc
      simp at hc

theorem windowChunk_of_wsFree (t : List Char) (M start : Nat)
    (hws : ∀ c ∈ t, c.isWhitespace = false) :
    windowChunk t M start = (t.drop start).take (min (start + M) t.length - start) := by
  unfold windowChunk
  refine stripChars_eq_self ?_
  intro c hc
  exact hws c (((List.take_sublist _ _).trans (List.drop_sublist _ _)).subset hc)

theorem window_ne_nil (t : List Char) (M start : Nat) (hM : 0 < M) (hs : start < t.length) :
    (t.drop start).take (min (start + M) t.length - start) ≠ [] := by
  have hlen : 0 < ((t.drop start).take (min (start + M) t.length - start)).length := by
    rw [List.length_take, List.length_drop]
    omega
  exact List.ne_nil_of_length_pos hlen

/-- Shape of the loop output at a valid start position on whitespace-free text:
the first chunk is the untrimmed window. -/
theorem chunkLoop_cons (t : List Char) (M V : Nat) (hM : 0 < M)
    (hws : ∀ c ∈ t, c.isWhitespace = false) :
    ∀ f start, start < t.length → t.length - start ≤ f →
      ∃ rest, chunkLoop t M V f start =
        (t.drop start).take (min (start + M) t.length - start) :: rest := by
  intro f start hs hf
  cases f with
  | zero => omega
  | succ f =>
    rw [chunkLoop_succ_eq, if_pos hs, windowChunk_of_wsFree t M start hws,
        if_neg (window_ne_nil t M start hM hs)]
    exact ⟨_, rfl⟩

/-- Removing the leading `overlap` characters of every chunk produced from
position `start` and concatenating yields the source text from `start + overlap`
on (whitespace-free text, valid parameters). -/
theorem chunkLoop_flatten_drop (t : List Char) (M V : Nat) (hM : 0 < M) (hVM : V < M)
    (hws : ∀ c ∈ t, c.isWhitespace = false) :
    ∀ f start, start < t.length → t.length - start ≤ f →
      ((chunkLoop t M V f start).map (List.drop V)).flatten = t.drop (start + V) := by
  intro f
  induction f with
  | zero => intro start hs hf; omega
  | succ f ih =>
    intro start hs hf
    rw [chunkLoop_succ_eq, if_pos hs, windowChunk_of_wsFree t M start hws,
        if_neg (window_ne_nil t M start hM hs)]
    by_cases he : min (start + M) t.length = t.length
    · rw [if_pos he]
      have htake : (t.drop start).take (min (start + M) t.length - start) = t.drop start := by
        refine List.take_of_length_le ?_
        rw [List.length_drop]; omega
      simp [htake, List.drop_drop]
    · rw [if_neg he]
      have hlt : start + M < t.length := by omega
      have hemin : min (start + M) t.length = start + M := by omega
      have h1 : start + M - start = M := by omega
      rw [hemin, h1]
      have hrec := ih (start + M - V) (by omega) (by omega)
      rw [List.singleton_append, List.map_cons, List.flatten_cons, hrec]
      have harg : start + M - V + V = start + M := by omega
      rw [harg]
      have hdt : List.drop V ((t.drop start).take M) = (t.drop (start + V)).take (M - V) := by
        rw [List.drop_take]
        congr 1
        rw [List.drop_drop]
      rw [hdt]
      have hdd : t.drop (start + M) = (t.drop (start + V)).drop (M - V) := by
        rw [List.drop_drop]
        congr 1
        omega
      rw [hdd, List.take_append_drop]

/-- Reassembling the chunks produced from position `start` recovers the
source text from `start` on (whitespace-free text, valid parameters). -/
theorem chunkLoop_reassemble (t : List Char) (M V : Nat) (hM : 0 < M) (hVM : V < M)
    (hws : ∀ c ∈ t, c.isWhitespace = false) :
    ∀ f start, start < t.length → t.length - start ≤ f →
      reassemble V (chunkLoop t M V f start) = t.drop start := by
  intro f start hs hf
  cases f with
  | zero => omega
  | succ f =>
    rw [chunkLoop_succ_eq, if_pos hs, windowChunk_of_wsFree t M start hws,
        if_neg (window_ne_nil t M start hM hs)]
    by_cases he : min (start + M) t.length = t.length
    · rw [if_pos he]
      have htake : (t.drop start).take (min (start + M) t.length - start) = t.drop start := by
        refine List.take_of_length_le ?_
        rw [List.length_drop]; omega
      simp [reassemble, htake]
    · rw [if_neg he]
      have hlt : start + M < t.length := by omega
      have hemin : min (start + M) t.length = start + M := by omega
      have h1 : start + M - start = M := by omega
      rw [hemin, h1, List.singleton_append, reassemble]
      rw [chunkLoop_flatten_drop t M V hM hVM hws f (start + M - V) (by omega) (by omega)]
      have harg : start + M - V + V = start + M := by omega
      rw [harg]
      have hdd : t.drop (start + M) = (t.drop start).drop M := by
        rw [List.drop_drop]
      rw [hdd, List.take_append_drop]

/-- Every adjacent pair of chunks produced from position `start` overlaps by
exactly `overlap` characters (whitespace-free text, valid parameters). -/
theorem chunkLoop_overlapOK (t : List Char) (M V : Nat) (hM : 0 < M) (hVM : V < M)
    (hws : ∀ c ∈ t, c.isWhitespace = false) :
    ∀ f start, start < t.length → t.length - start ≤ f →
      overlapOK V (chunkLoop t M V f start) = true := by
  intro f
  induction f with
  | zero => intro start hs hf; omega
  | succ f ih =>
    intro start hs hf
    rw [chunkLoop_succ_eq, if_pos hs, windowChunk_of_wsFree t M start hws,
        if_neg (window_ne_nil t M start hM hs)]
    by_cases he : min (start + M) t.length = t.length
    · rw [if_pos he]
      rfl
    · rw [if_neg he]
      have hlt : start + M < t.length := by omega
      have hemin : min (start + M) t.length = start + M := by omega
      have h1 : start + M - start = M := by omega
      rw [hemin, h1, List.singleton_append]
      obtain ⟨rest, hrest⟩ :=
        chunkLoop_cons t M V hM hws f (start + M - V) (by omega) (by omega)
      have hih := ih (start + M - V) (by omega) (by omega)
      rw [hrest] at hih ⊢
      rw [overlapOK, Bool.and_eq_true]
      refine ⟨?_, hih⟩
      have hwlen : ((t.drop start).take M).length = M := by
        rw [List.length_take, List.length_drop]; omega
      have hleft : ((t.drop start).take M).drop (((t.drop start).take M).length - V) =
          (t.drop (start + M - V)).take V := by
        rw [hwlen, List.drop_take]
        have h2 : M - (M - V) = V := by omega
        rw [h2, List.drop_drop]
        congr 2
        omega
      have hright : ((t.drop (start + M - V)).take
            (min (start + M - V + M) t.length - (start + M - V))).take V =
          (t.drop (start + M - V)).take V := by
        rw [List.take_take]
        congr 1
        omega
      rw [hleft, hright]
      exact beq_self_eq_true _

/-- C8: for every text and valid parameter pair, `chunk_text` succeeds, the
loop's result is unchanged by any additional fuel (so the iteration count
`t.length` supplied by `chunk_text` already suffices: the loop terminates),
and every produced chunk is non-empty with length at most `max_chars`. -/
theorem c8_chunk_text_terminates_and_bounds
    (text : List Char) (max_chars overlap : Int)
    (hmc : 0 < max_chars) (hov : 0 ≤ overlap) (hvm : overlap < max_chars) :
    ∃ cs, chunk_text text max_chars overlap = .ok cs
      ∧ (∀ c ∈ cs, c ≠ [] ∧ c.length ≤ max_chars.toNat)
      ∧ (∀ extra, chunkLoop (stripChars text) max_chars.toNat overlap.toNat
            ((stripChars text).length + extra) 0
          = chunkLoop (stripChars text) max_chars.toNat overlap.toNat
            (stripChars text).length 0) := by
  have hVM : overlap.toNat < max_chars.toNat := by omega
  have hterm : ∀ extra, chunkLoop (stripChars text) max_chars.toNat overlap.toNat
      ((stripChars text).length + extra) 0
    = chunkLoop (stripChars text) max_chars.toNat overlap.toNat
      (stripChars text).length 0 := by
    intro extra
    exact chunkLoop_fuel_add (stripChars text) max_chars.toNat overlap.toNat hVM
      extra (stripChars text).length 0 (by omega)
  unfold chunk_text
  rw [if_neg (by omega), if_neg (by omega), if_neg (by omega)]
  by_cases ht : stripChars text = []
  · rw [if_pos ht]
    exact ⟨[], rfl, by simp, hterm⟩
  · rw [if_neg ht]
    refine ⟨_, rfl, ?_, hterm⟩
    intro c hc
    exact chunkLoop_mem (stripChars text) max_chars.toNat overlap.toNat _ 0 c hc

/-- C8 witness: concrete valid input. -/
theorem c8_chunk_text_terminates_and_bounds_witness :
    (0 : Int) < 3 ∧ (0 : Int) ≤ 1 ∧ (1 : Int) < 3 ∧
    (∃ cs, chunk_text ("abcde".toList) 3 1 = .ok cs
      ∧ (∀ c ∈ cs, c ≠ [] ∧ c.length ≤ (3 : Int).toNat)
      ∧ (∀ extra, chunkLoop (stripChars "abcde".toList) (3 : Int).toNat (1 : Int).toNat
            ((stripChars "abcde".toList).length + extra) 0
          = chunkLoop (stripChars "abcde".toList) (3 : Int).toNat (1 : Int).toNat
            (stripChars "abcde".toList).length 0)) :=
  ⟨by decide, by decide, by decide,
    c8_chunk_text_terminates_and_bounds "abcde".toList 3 1
      (by decide) (by decide) (by decide)⟩

/-- C2 counterexample: on `"ab cd"` with `max_chars = 3`, `overlap = 1`, the
produced chunks are `["ab", "cd"]` (per-window `strip()` removed the space):
consecutive chunks do not overlap by 1 character, and reassembling does not
reconstruct the stripped source text. -/
theorem c2_counterexample :
    chunk_text ("ab cd".toList) 3 1 =
      .ok [['a', 'b'], ['c', 'd']] ∧
    overlapOK 1 [['a', 'b'], ['c', 'd']] = false ∧
    reassemble 1 [['a', 'b'], ['c', 'd']] ≠ stripChars ("ab cd".toList) := by
  refine ⟨rfl, by decide, by decide⟩

/-- C2 (amended): for every text containing no whitespace characters and
every valid parameter pair, the chunk list satisfies the coverage invariant:
consecutive chunks overlap by exactly `overlap` characters, and concatenating
the chunks with each chunk's leading `overlap` characters removed (after the
first) reconstructs the whitespace-stripped source text. -/
theorem c2_chunk_overlap_coverage
    (text : List Char) (max_chars overlap : Int)
    (hmc : 0 < max_chars) (hov : 0 ≤ overlap) (hvm : overlap < max_chars)
    (hws : ∀ c ∈ text, c.isWhitespace = false) :
    ∃ cs, chunk_text text max_chars overlap = .ok cs
      ∧ overlapOK overlap.toNat cs = true
      ∧ reassemble overlap.toNat cs = stripChars text := by
  have hVM : overlap.toNat < max_chars.toNat := by omega
  have hM : 0 < max_chars.toNat := by omega
  have hstrip : stripChars text = text := stripChars_eq_self hws
  unfold chunk_text
  rw [if_neg (by omega), if_neg (by omega), if_neg (by omega)]
  by_cases ht : stripChars text = []
  · rw [if_pos ht, ht]
    exact ⟨[], rfl, rfl, rfl⟩
  · rw [if_neg ht]
    have hpos : 0 < (stripChars text).length :=
      List.length_pos_of_ne_nil ht
    rw [hstrip] at hpos ⊢
    refine ⟨_, rfl, ?_, ?_⟩
    · exact chunkLoop_overlapOK text max_chars.toNat overlap.toNat hM hVM hws
        text.length 0 hpos (by omega)
    · have := chunkLoop_reassemble text max_chars.toNat overlap.toNat hM hVM hws
        text.length 0 hpos (by omega)
      rw [List.drop_zero] at this
      exact this

/-- C2 witness: concrete whitespace-free input. -/
theorem c2_chunk_overlap_coverage_witness :
    (0 : Int) < 3 ∧ (0 : Int) ≤ 1 ∧ (1 : Int) < 3 ∧
    (∀ c ∈ "abcde".toList, c.isWhitespace = false) ∧
    (∃ cs, chunk_text ("abcde".toList) 3 1 = .ok cs
      ∧ overlapOK (1 : Int).toNat cs = true
      ∧ reassemble (1 : Int).toNat cs = stripChars "abcde".toList) :=
  ⟨by decide, by decide, by decide, by decide,
    c2_chunk_overlap_coverage "abcde".toList 3 1
      (by decide) (by decide) (by decide) (by decide)⟩

theorem string_toList_append (a b : String) : (a ++ b).toList = a.toList ++ b.toList := rfl

/-- C3 counterexample: when the external command is not installed, the failure
is a `FileNotFoundError`, not the backend-error condition (`RuntimeError`
carrying the captured standard output and standard error) the claim states
for both failure cases. -/
theorem c3_counterexample :
    apply_diff_with_git "diff" ProcResult.notInstalled =
      .error DiffApplyError.fileNotFoundError ∧
    ¬ ∃ msg, apply_diff_with_git "diff" ProcResult.notInstalled =
      .error (DiffApplyError.runtimeError msg) := by
  refine ⟨rfl, ?_⟩
  rintro ⟨msg, hmsg⟩
  simp [apply_diff_with_git] at hmsg

/-- C3 (amended): `apply_diff_with_git` either succeeds (exit code 0), or
fails with a `RuntimeError` whose message embeds the captured standard output
and standard error (nonzero exit code), or fails with a `FileNotFoundError`
(external command not installed). -/
theorem c3_apply_diff_failure_modes
    (diff_text : String) (returncode : Int) (stdout stderr : String)
    (hrc : returncode ≠ 0) :
    (∃ msg, apply_diff_with_git diff_text (.completed returncode stdout stderr) =
        .error (.runtimeError msg)
      ∧ stdout.toList <:+: msg.toList ∧ stderr.toList <:+: msg.toList)
    ∧ apply_diff_with_git diff_text ProcResult.notInstalled =
        .error .fileNotFoundError
    ∧ apply_diff_with_git diff_text (.completed 0 stdout stderr) = .ok () := by
  refine ⟨⟨"git apply failed with code " ++ toString returncode ++ ":\n" ++
      "STDOUT:\n" ++ stdout ++ "\n" ++ "STDERR:\n" ++ stderr, ?_, ?_, ?_⟩, rfl, rfl⟩
  · simp [apply_diff_with_git, hrc]
  · refine ⟨("git apply failed with code " ++ toString returncode ++ ":\n" ++
      "STDOUT:\n").toList, ("\n" ++ "STDERR:\n" ++ stderr).toList, ?_⟩
    simp [string_toList_append]
  · refine ⟨("git apply failed with code " ++ toString returncode ++ ":\n" ++
      "STDOUT:\n" ++ stdout ++ "\n" ++ "STDERR:\n").toList, [], ?_⟩
    simp [string_toList_append]

/-- C3 witness: concrete nonzero exit code. -/
theorem c3_apply_diff_failure_modes_witness :
    (1 : Int) ≠ 0 ∧
    ((∃ msg, apply_diff_with_git "d" (.completed 1 "out" "err") =
        .error (.runtimeError msg)
      ∧ "out".toList <:+: msg.toList ∧ "err".toList <:+: msg.toList)
    ∧ apply_diff_with_git "d" ProcResult.notInstalled =
        .error .fileNotFoundError
    ∧ apply_diff_with_git "d" (.completed 0 "out" "err") = .ok ()) :=
  ⟨by decide, c3_apply_diff_failure_modes "d" 1 "out" "err" (by decide)⟩

/-- C4 counterexample: the per-call `options` dict is merged *after* the
temperature is set, so a per-call `options` containing a `"temperature"` key
overrides the per-call temperature argument: with per-call temperature 2 and
`options = {"temperature": 3}`, the request carries temperature 3, not 2. -/
theorem c4_counterexample :
    (chatPayload {} [] (some 2) none
        (some (PyDict.empty.setKey "temperature" (.num 3)))).options "temperature"
      = some (.num 3) ∧
    (chatPayload {} [] (some 2) none
        (some (PyDict.empty.setKey "temperature" (.num 3)))).options "temperature"
      ≠ some (.num 2) := by
  constructor
  · rfl
  · intro h
    simp [chatPayload, chatRequestOptions, PyDict.updateWith, PyDict.setKey,
      PyDict.empty, Option.orElse] at h

/-- C4 (amended): whenever the per-call `options` dict contains neither a
`"temperature"` nor a `"num_predict"` key and the config default options
contain no `"num_predict"` key, the request options carry `temperature` equal
to the per-call temperature (falling back to the config default), and carry
`num_predict` exactly when the effective max-token value (per-call value,
else config default) is present and positive, with that value. -/
theorem c4_request_options
    (cfg : LocalLLMConfig) (messages : List ChatMsg)
    (temperature : Option Rat) (max_tokens : Option Int)
    (options : Option (PyDict OptVal))
    (hopt : ∀ o, options = some o → (o "temperature" = none ∧ o "num_predict" = none))
    (hdef : cfg.default_options "num_predict" = none) :
    (chatPayload cfg messages temperature max_tokens options).options "temperature"
      = some (.num (match temperature with
                    | some t => t
                    | none => cfg.default_temperature)) ∧
    (chatPayload cfg messages temperature max_tokens options).options "num_predict"
      = (match (match max_tokens with
                | some m => some m
                | none => cfg.default_max_tokens) with
         | some m => if 0 < m then some (.int m) else none
         | none => none) := by
  unfold chatPayload chatRequestOptions
  constructor
  · cases options with
    | none =>
      cases hm : (match max_tokens with
                  | some m => some m
                  | none => cfg.default_max_tokens : Option Int) with
      | none => simp [hm, PyDict.setKey]
      | some m =>
        by_cases hpos : 0 < m
        · simp [hm, hpos, PyDict.setKey]
        · simp [hm, hpos, PyDict.setKey]
    | some o =>
      have ho := hopt o rfl
      cases hm : (match max_tokens with
                  | some m => some m
                  | none => cfg.default_max_tokens : Option Int) with
      | none => simp [hm, PyDict.setKey, PyDict.updateWith, ho.1, Option.orElse]
      | some m =>
        by_cases hpos : 0 < m
        · simp [hm, hpos, PyDict.setKey, PyDict.updateWith, ho.1, Option.orElse]
        · simp [hm, hpos, PyDict.setKey, PyDict.updateWith, ho.1, Option.orElse]
  · cases options with
    | none =>
      cases hm : (match max_tokens with
                  | some m => some m
                  | none => cfg.default_max_tokens : Option Int) with
      | none => simp [hm, PyDict.setKey, hdef]
      | some m =>
        by_cases hpos : 0 < m
        · simp [hm, hpos, PyDict.setKey]
        · simp [hm, hpos, PyDict.setKey, hdef]
    | some o =>
      have ho := hopt o rfl
      cases hm : (match max_tokens with
                  | some m => some m
                  | none => cfg.default_max_tokens : Option Int) with
      | none => simp [hm, PyDict.setKey, PyDict.updateWith, ho.2, hdef, Option.orElse]
      | some m =>
        by_cases hpos : 0 < m
        · simp [hm, hpos, PyDict.setKey, PyDict.updateWith, ho.2, Option.orElse]
        · simp [hm, hpos, PyDict.setKey, PyDict.updateWith, ho.2, hdef, Option.orElse]

/-- C4 witness: concrete call with benign per-call options. -/
theorem c4_request_options_witness :
    (∀ o, (some (PyDict.empty.setKey "top_p" (.num 1)) : Option (PyDict OptVal)) = some o →
      (o "temperature" = none ∧ o "num_predict" = none)) ∧
    (PyDict.empty : PyDict OptVal) "num_predict" = none ∧
    ((chatPayload {} [] (some 2) (some 7)
        (some (PyDict.empty.setKey "top_p" (.num 1)))).options "temperature"
      = some (.num 2) ∧
     (chatPayload {} [] (some 2) (some 7)
        (some (PyDict.empty.setKey "top_p" (.num 1)))).options "num_predict"
      = some (.int 7)) := by
  refine ⟨?_, rfl, ?_⟩
  · intro o h
    injection h with h
    subst h
    exact ⟨rfl, rfl⟩
  · have h := c4_request_options {} [] (some 2) (some 7)
      (some (PyDict.empty.setKey "top_p" (.num 1)))
      (by intro o h; injection h with h; subst h; exact ⟨rfl, rfl⟩) rfl
    simpa using h

/-- C6: on a fresh client, `send_chat_message` fails with the
no-active-session error; after `start_chat None` and two successful sends,
the history holds exactly 4 messages with roles user, assistant, user,
assistant in order. -/
theorem c6_session_lifecycle (m1 m2 r1 r2 : String) :
    (send_chat_message none m1 (.reply r1)).1 = .error .noActiveSession ∧
    ((send_chat_message
        (send_chat_message (start_chat none) m1 (.reply r1)).2
        m2 (.reply r2)).2.getD []).length = 4 ∧
    ((send_chat_message
        (send_chat_message (start_chat none) m1 (.reply r1)).2
        m2 (.reply r2)).2.getD []).map ChatMsg.role =
      [.user, .assistant, .user, .assistant] ∧
    get_history (send_chat_message
        (send_chat_message (start_chat none) m1 (.reply r1)).2
        m2 (.reply r2)).2 =
      [⟨.user, m1⟩, ⟨.assistant, r1⟩, ⟨.user, m2⟩, ⟨.assistant, r2⟩] := by
  refine ⟨rfl, rfl, rfl, rfl⟩

/-- C9: `send_chat_message` is not atomic on error: with an active session,
a backend failure leaves the history equal to the pre-call history with the
user turn appended (no assistant reply), and retrying the same message after
such a failure duplicates the user turn. -/
theorem c9_send_not_atomic (history : List ChatMsg) (m : String) :
    send_chat_message (some history) m .backendFailure =
      (.error .backendError, some (history ++ [⟨.user, m⟩])) ∧
    (send_chat_message
        (send_chat_message (some history) m .backendFailure).2
        m .backendFailure).2 =
      some (history ++ [⟨.user, m⟩, ⟨.user, m⟩]) := by
  refine ⟨rfl, ?_⟩
  simp [send_chat_message]

/-- C10: `get_history` never fails: with no active session (fresh client or
after `reset_chat`) it returns the empty list, in the very state where
`send_chat_message` raises the session-state error; and the list it returns
is a fresh copy — mutating the returned list object leaves the stored
session history unchanged. -/
theorem c10_get_history_total_and_fresh
    (st : ChatState) (m : String) (o : ChatOutcome) (heap : PyHeap) (i : Nat)
    (hi : i < heap.cells.length) :
    get_history none = [] ∧
    get_history (reset_chat st) = [] ∧
    (send_chat_message none m o).1 = .error .noActiveSession ∧
    (get_history_ref heap (some i)).2 ≠ i ∧
    readRef (get_history_ref heap (some i)).1 (get_history_ref heap (some i)).2 =
      readRef heap i ∧
    (∀ v, readRef (writeRef (get_history_ref heap (some i)).1
        (get_history_ref heap (some i)).2 v) i = readRef heap i) := by
  refine ⟨rfl, rfl, by cases o <;> rfl, by show heap.cells.length ≠ i; omega, ?_, ?_⟩
  · show (heap.cells ++ [readRef heap i]).getD heap.cells.length [] = readRef heap i
    rw [List.getD_eq_getElem?_getD, List.getElem?_append_right (le_refl _)]
    simp
  · intro v
    show ((heap.cells ++ [readRef heap i]).set heap.cells.length v).getD i [] =
      readRef heap i
    rw [List.getD_eq_getElem?_getD, List.getElem?_set_ne (by omega)]
    rw [List.getElem?_append_left hi]
    rw [readRef, List.getD_eq_getElem?_getD]

/-- C10 witness: concrete heap with an active session. -/
theorem c10_get_history_total_and_fresh_witness :
    (0 : Nat) < (PyHeap.mk [[⟨.user, "hi"⟩]]).cells.length ∧
    (get_history none = [] ∧
     get_history (reset_chat (some [⟨.user, "hi"⟩])) = [] ∧
     (send_chat_message none "m" .backendFailure).1 = .error .noActiveSession ∧
     (get_history_ref (PyHeap.mk [[⟨.user, "hi"⟩]]) (some 0)).2 ≠ 0 ∧
     readRef (get_history_ref (PyHeap.mk [[⟨.user, "hi"⟩]]) (some 0)).1
        (get_history_ref (PyHeap.mk [[⟨.user, "hi"⟩]]) (some 0)).2 =
       readRef (PyHeap.mk [[⟨.user, "hi"⟩]]) 0 ∧
     (∀ v, readRef (writeRef (get_history_ref (PyHeap.mk [[⟨.user, "hi"⟩]]) (some 0)).1
        (get_history_ref (PyHeap.mk [[⟨.user, "hi"⟩]]) (some 0)).2 v) 0 =
       readRef (PyHeap.mk [[⟨.user, "hi"⟩]]) 0)) :=
  ⟨by decide,
   c10_get_history_total_and_fresh (some [⟨.user, "hi"⟩]) "m" .backendFailure
     (PyHeap.mk [[⟨.user, "hi"⟩]]) 0 (by decide)⟩

theorem alGet_alSet {K V : Type} [DecidableEq K] (l : List (K × V)) (k k' : K) (v : V) :
    alGet (alSet l k v) k' = if k = k' then some v else alGet l k' := by
  induction l with
  | nil =>
    by_cases h : k = k'
    · simp [alSet, alGet, h]
    · simp [alSet, alGet, h]
  | cons p rest ih =>
    obtain ⟨k0, v0⟩ := p
    by_cases h0 : k0 = k
    · subst h0
      by_cases h : k0 = k'
      · simp [alSet, alGet, h]
      · simp [alSet, alGet, h]
    · by_cases h : k0 = k'
      · subst h
        have hkk : ¬ k = k0 := fun hh => h0 hh.symm
        simp [alSet, alGet, h0, hkk]
      · simp [alSet, alGet, h0, h, ih]

theorem storeGet_storeSet (idx : ClassIndex) (file cls intf summ f c : String) :
    storeGet (storeSet idx file cls intf summ) f c =
      if file = f ∧ cls = c then some ⟨intf, summ⟩ else storeGet idx f c := by
  unfold storeGet storeSet
  rw [alGet_alSet]
  by_cases hf : file = f
  · subst hf
    rw [if_pos rfl, Option.getD_some, alGet_alSet]
    by_cases hc : cls = c
    · rw [if_pos hc, if_pos ⟨rfl, hc⟩]
    · rw [if_neg hc, if_neg (fun hh => hc hh.2)]
  · rw [if_neg hf, if_neg (fun hh => hf hh.1)]

theorem find_append_singleton {α : Type} (l : List α) (p : α → Bool) (a : α) :
    (l ++ [a]).find? p =
      match l.find? p with
      | some x => some x
      | none => if p a then some a else none := by
  induction l with
  | nil => cases hpa : p a <;> simp [List.find?, hpa]
  | cons b l ih =>
    cases hpb : p b <;> simp [List.find?, hpb, ih]

theorem lastSet_cons (op : SetOp) (ops : List SetOp) (f c : String) :
    lastSet (op :: ops) f c =
      match lastSet ops f c with
      | some m => some m
      | none =>
        if op.file = f ∧ op.cls = c then some ⟨op.interface, op.summary⟩ else none := by
  unfold lastSet
  rw [List.reverse_cons, find_append_singleton]
  cases hfind : ops.reverse.find? (fun o => o.file == f && o.cls == c) with
  | none =>
    by_cases hm : op.file = f ∧ op.cls = c
    · have hp : (op.file == f && op.cls == c) = true := by
        rw [Bool.and_eq_true, beq_iff_eq, beq_iff_eq]
        exact hm
      simp [hp, hm]
    · have hp : (op.file == f && op.cls == c) = false := by
        rw [Bool.eq_false_iff]
        intro hh
        rw [Bool.and_eq_true, beq_iff_eq, beq_iff_eq] at hh
        exact hm hh
      simp [hp, hm]
  | some x => simp

theorem storeGet_applyOps (ops : List SetOp) :
    ∀ (idx : ClassIndex) (f c : String),
      storeGet (applyOps ops idx) f c =
        match lastSet ops f c with
        | some m => some m
        | none => storeGet idx f c := by
  induction ops with
  | nil =>
    intro idx f c
    simp [applyOps, lastSet, List.find?]
  | cons op ops ih =>
    intro idx f c
    have happ : applyOps (op :: ops) idx =
        applyOps ops (storeSet idx op.file op.cls op.interface op.summary) := rfl
    rw [happ, ih, storeGet_storeSet, lastSet_cons]
    cases hfind : lastSet ops f c with
    | some m => simp
    | none => by_cases hm : op.file = f ∧ op.cls = c <;> simp [hm]

theorem storeLoad_storeSave (idx : ClassIndex) : storeLoad (storeSave idx) = idx := by
  unfold storeLoad storeSave
  rw [List.map_map]
  induction idx with
  | nil => rfl
  | cons p rest ih =>
    rw [List.map_cons, ih]
    have hbucket : ∀ b : List (String × ClassMetadata),
        (b.map (fun cm => (cm.1, (⟨some cm.2.interface, some cm.2.summary⟩ : SymJson)))).map
          (fun cd =>
            (cd.1, (⟨cd.2.interfaceField.getD "", cd.2.summaryField.getD ""⟩ : ClassMetadata)))
        = b := by
      intro b
      induction b with
      | nil => rfl
      | cons q qrest qih =>
        rw [List.map_cons, List.map_cons, qih]
        rfl
    have hp : ((fun fc => (fc.1, fc.2.map (fun cd =>
          (cd.1, (⟨cd.2.interfaceField.getD "", cd.2.summaryField.getD ""⟩ : ClassMetadata))))) ∘
        (fun fc => (fc.1, fc.2.map (fun cm =>
          (cm.1, (⟨some cm.2.interface, some cm.2.summary⟩ : SymJson)))))) p
        = p := by
      show (p.1, (p.2.map _).map _) = p
      rw [hbucket p.2]
    rw [hp]

/-- C5: running any finite sequence of `set` calls on a fresh store, saving,
and loading the saved document into a fresh store yields a store whose `get`
returns exactly the last-written `{interface, summary}` pair for every key
that was set, and nothing for any other key. -/
theorem c5_store_roundtrip (ops : List SetOp) (f c : String) :
    storeGet (storeLoad (storeSave (applyOps ops []))) f c = lastSet ops f c := by
  rw [storeLoad_storeSave, storeGet_applyOps]
  cases hfind : lastSet ops f c with
  | some m => simp
  | none => simp [storeGet, alGet]

theorem interface_foldl_eq (body : List PyClassStmt) :
    ∀ acc : List String,
      body.foldl interfaceStep acc =
        acc ++ ((body.filterMap classStmtFunc).filter keepMethod).flatMap methodLines := by
  induction body with
  | nil => intro acc; simp
  | cons st rest ih =>
    intro acc
    cases st with
    | funcDef f =>
      rw [List.foldl_cons, List.filterMap_cons_some (show classStmtFunc (.funcDef f) = some f from rfl)]
      by_cases hskip : (f.name.startsWith "__" && f.name != "__init__") = true
      · have hstep : interfaceStep acc (.funcDef f) = acc := by
          show (if f.name.startsWith "__" && f.name != "__init__" then acc
            else acc ++ methodLines f) = acc
          rw [if_pos hskip]
        have hfilt : keepMethod f = false := by
          unfold keepMethod
          rw [hskip]
          rfl
        rw [hstep, ih acc, List.filter_cons_of_neg (by simp [hfilt])]
      · have hskip' : (f.name.startsWith "__" && f.name != "__init__") = false :=
          Bool.eq_false_iff.mpr hskip
        have hstep : interfaceStep acc (.funcDef f) = acc ++ methodLines f := by
          show (if f.name.startsWith "__" && f.name != "__init__" then acc
            else acc ++ methodLines f) = acc ++ methodLines f
          rw [if_neg hskip]
        have hfilt : keepMethod f = true := by
          unfold keepMethod
          rw [hskip']
          rfl
        rw [hstep, ih (acc ++ methodLines f), List.filter_cons_of_pos hfilt]
        rw [List.flatMap_cons, List.append_assoc]
    | other =>
      rw [List.foldl_cons, List.filterMap_cons_none (show classStmtFunc .other = none from rfl)]
      exact ih acc

/-- C7: for every parseable source and top-level class in it, the extracted
interface is the class preamble followed by the rendered blocks of exactly
the kept methods; every double-underscore method other than `__init__` is
omitted; every public method and the constructor are kept; every kept
method's block carries the `...` body placeholder and, when a docstring is
present, the triple-quoted docstring block, inside which a single-line
docstring appears verbatim. -/
theorem c7_interface_policy (m : PyModule) (class_name : String) (c : PyClassDef)
    (hfind : findTopLevelClass m class_name = some c) :
    getPythonClassInterface m class_name =
      .ok (String.intercalate "\n"
        (classPreamble c ++ (includedMethods c).flatMap methodLines)) ∧
    (∀ f ∈ classFuncDefs c, f.name.startsWith "__" = true → f.name ≠ "__init__" →
      f ∉ includedMethods c) ∧
    (∀ f ∈ classFuncDefs c, (f.name.startsWith "__" = false ∨ f.name = "__init__") →
      f ∈ includedMethods c) ∧
    (∀ f ∈ includedMethods c,
      (spacesStr (f.colOffset + 4) ++ "...") ∈ methodLines f ∧
      (∀ d, f.docstring = some d →
        indentBlock (spacesStr (f.colOffset + 4)) (quoteDoc d) ∈ methodLines f ∧
        ((quoteDoc d).splitOn "\n" = [quoteDoc d] →
          d.toList <:+:
            (indentBlock (spacesStr (f.colOffset + 4)) (quoteDoc d)).toList))) := by
  refine ⟨?_, ?_, ?_, ?_⟩
  · unfold getPythonClassInterface
    rw [hfind]
    show Except.ok (String.intercalate "\n" (c.body.foldl _ (classPreamble c))) = _
    rw [interface_foldl_eq c.body (classPreamble c)]
    rfl
  · intro f hf h1 h2
    intro hmem
    rw [includedMethods, List.mem_filter] at hmem
    have hT : (f.name.startsWith "__" && f.name != "__init__") = true := by
      rw [Bool.and_eq_true, bne_iff_ne]
      exact ⟨h1, h2⟩
    rw [keepMethod, hT] at hmem
    simp at hmem
  · intro f hf h
    rw [includedMethods, List.mem_filter]
    refine ⟨hf, ?_⟩
    rw [keepMethod]
    rcases h with h | h
    · simp [h]
    · simp [h]
  · intro f hf
    refine ⟨?_, ?_⟩
    · unfold methodLines
      cases f.headerLine <;> cases f.docstring <;> simp
    · intro d hd
      constructor
      · unfold methodLines
        rw [hd]
        cases f.headerLine <;> simp
      · intro hone
        unfold indentBlock
        rw [hone, List.map_cons, List.map_nil]
        have hsingle : String.intercalate "\n" [indentLine (spacesStr (f.colOffset + 4))
            (quoteDoc d)] = indentLine (spacesStr (f.colOffset + 4)) (quoteDoc d) := by
          simp [String.intercalate, String.intercalate.go]
        rw [hsingle]
        unfold indentLine
        by_cases hws : (quoteDoc d).trim.isEmpty = true
        · rw [if_pos hws]
          exact ⟨"\"\"\"".toList, "\"\"\"".toList, by simp [quoteDoc, string_toList_append]⟩
        · rw [if_neg hws]
          refine ⟨(spacesStr (f.colOffset + 4) ++ "\"\"\"").toList, "\"\"\"".toList, ?_⟩
          simp [quoteDoc, string_toList_append]

/-- C1 evaluation at the claimed scenario: the symbols are extracted as the
claim expects, and `analyze_file_into_tree` raises `AttributeError` (the
`CodeService` methods the analyzer calls do not exist), so after `analyze`
the flat store holds no entry at all for `a.py` — in particular none of
`__module__`, `Foo`, `func:helper` — and the folder document written at the
workspace root lists `a.py` with an empty symbol mapping. -/
theorem c1_analyzer_missing_methods :
    extract_top_level_symbols scenarioFile.module = (["Foo"], ["helper"]) ∧
    (analyze_file_into_tree scenarioFile (FolderNode.mk "." [] []) []).2 =
      some (.attributeError "get_module_interface") ∧
    (analyze [scenarioFile] []).2.1 = [] ∧
    storeGet (analyze [scenarioFile] []).2.1 "a.py" "__module__" = none ∧
    storeGet (analyze [scenarioFile] []).2.1 "a.py" "Foo" = none ∧
    storeGet (analyze [scenarioFile] []).2.1 "a.py" "func:helper" = none ∧
    (analyze [scenarioFile] []).2.2 =
      [(".", FolderNode.mk "." [("a.py", [])] [])] := by
  refine ⟨rfl, rfl, rfl, rfl, rfl, rfl, ?_⟩
  rfl

/-- C7 witness: concrete module containing the witness class. -/
theorem c7_interface_policy_witness :
    findTopLevelClass witnessModule "Foo" = some witnessClass ∧
    getPythonClassInterface witnessModule "Foo" =
      .ok (String.intercalate "\n"
        (classPreamble witnessClass ++
          (includedMethods witnessClass).flatMap methodLines)) :=
  ⟨rfl, (c7_interface_policy witnessModule "Foo" witnessClass rfl).1⟩

end LlmLocal
